import Mathlib

/-!
Shallow embedding of the core of `rust_action_dispatch`: the wire codec
(`core-logic/src/communications.rs`), the coordinator's completion ingestor
(`central-command/src/command_receiver.rs`), the scheduler and dispatcher
(`central-command/src/agent_manager.rs`), the agent's reporter link
(`agent/src/main.rs`) and the agent-side job executor
(`agent/src/job_dispatch.rs`).  Every definition below is translated from
the corresponding Rust source; definitions whose name carries the suffix
`_spec` are instead written from the natural-language specification and are
compared with the source-derived definitions in the theorems.
-/

namespace RustActionDispatch

/-! ## Wire-codec data model (core-logic/src/communications.rs) -/

/-- Agent registration payload (`struct RegisterAgent`). -/
structure RegisterAgent where
  name : String
  hostname : String
  port : Nat
deriving DecidableEq

/-- Job dispatch payload (`struct DispatchJob`). -/
structure DispatchJob where
  job_name : String
  command : String
  args : String
  agent_name : Option String
  valid_return_codes : Option (List Int)
deriving DecidableEq

/-- Job outcome reported by an agent (`enum JobOutCome`). -/
inductive JobOutCome where
  | Failure
  | Success
  | Unknown
deriving DecidableEq

/-- Job completion payload (`struct JobComplete`). -/
structure JobComplete where
  started_at : Int
  completed_at : Int
  job_name : String
  command : String
  agent_name : String
  return_code : Int
  outcome : JobOutCome
  output : String
deriving DecidableEq

/-- Tagged union of every message exchanged on the wire (`enum Message`). -/
inductive Message where
  | Ping
  | RegisterAgent (r : RegisterAgent)
  | DispatchJob (d : DispatchJob)
  | JobComplete (j : JobComplete)
deriving DecidableEq

/-! Mirror of the `rkyv`-archived forms of the message set.  The `rkyv`
library guarantees that `rkyv::to_bytes` followed by `rkyv::access`
recovers the archived form of the serialised value; the archive maps below
model exactly that contract (archived strings and integers carry the same
data as the originals, `ArchivedOption` mirrors `Option`).  The decoding
half, `Message.fromArchived`, is translated field by field from
`impl From<&ArchivedMessage> for Message` in communications.rs. -/

/-- Archived mirror of `Option` (`rkyv::option::ArchivedOption`). -/
inductive ArchivedOption (α : Type) where
  | none
  | some (x : α)
deriving DecidableEq

/-- Map over an archived option, modelling `ArchivedOption::as_ref().map`. -/
def ArchivedOption.mapRef {α β : Type} (f : α → β) : ArchivedOption α → Option β
  | .none => Option.none
  | .some x => Option.some (f x)

/-- Archived mirror of `RegisterAgent`. -/
structure ArchivedRegisterAgent where
  name : String
  hostname : String
  port : Nat
deriving DecidableEq

/-- Archived mirror of `DispatchJob`. -/
structure ArchivedDispatchJob where
  job_name : String
  command : String
  args : String
  agent_name : ArchivedOption String
  valid_return_codes : ArchivedOption (List Int)
deriving DecidableEq

/-- Archived mirror of `JobOutCome` (`ArchivedJobOutCome`). -/
inductive ArchivedJobOutCome where
  | Failure
  | Success
  | Unknown
deriving DecidableEq

/-- Archived mirror of `JobComplete`. -/
structure ArchivedJobComplete where
  started_at : Int
  completed_at : Int
  job_name : String
  command : String
  agent_name : String
  return_code : Int
  outcome : ArchivedJobOutCome
  output : String
deriving DecidableEq

/-- Archived mirror of `Message` (`ArchivedMessage`). -/
inductive ArchivedMessage where
  | Ping
  | RegisterAgent (r : ArchivedRegisterAgent)
  | DispatchJob (d : ArchivedDispatchJob)
  | JobComplete (j : ArchivedJobComplete)
deriving DecidableEq

/-- Archiving of a message, modelling the `rkyv` serialise-then-access
round through bytes (`rkyv::to_bytes` in `TryFrom<Message> for Vec<u8>`
followed by `rkyv::access` in `TryFrom<Vec<u8>> for Message`).  The
`rkyv` derive stores each field unchanged in its archived form. -/
def Message.archive : Message → ArchivedMessage
  | .Ping => .Ping
  | .RegisterAgent r => .RegisterAgent ⟨r.name, r.hostname, r.port⟩
  | .DispatchJob d =>
      .DispatchJob ⟨d.job_name, d.command, d.args,
        (match d.agent_name with
          | Option.none => ArchivedOption.none
          | Option.some s => ArchivedOption.some s),
        (match d.valid_return_codes with
          | Option.none => ArchivedOption.none
          | Option.some v => ArchivedOption.some v)⟩
  | .JobComplete j =>
      .JobComplete ⟨j.started_at, j.completed_at, j.job_name, j.command,
        j.agent_name, j.return_code,
        (match j.outcome with
          | .Failure => ArchivedJobOutCome.Failure
          | .Success => ArchivedJobOutCome.Success
          | .Unknown => ArchivedJobOutCome.Unknown),
        j.output⟩

/-- Decoding of an archived outcome
(`impl From<&ArchivedJobOutCome> for JobOutCome`). -/
def JobOutCome.fromArchived : ArchivedJobOutCome → JobOutCome
  | .Failure => .Failure
  | .Success => .Success
  | .Unknown => .Unknown

/-- Decoding of an archived message, translated match arm by match arm
from `impl From<&ArchivedMessage> for Message` (communications.rs,
lines 144-196). -/
def Message.fromArchived : ArchivedMessage → Message
  | .Ping => .Ping
  | .RegisterAgent a => .RegisterAgent ⟨a.name, a.hostname, a.port⟩
  | .DispatchJob a =>
      let agent_name : Option String :=
        match a.agent_name with
        | ArchivedOption.none => Option.none
        | ArchivedOption.some s => Option.some s
      .DispatchJob ⟨a.job_name, a.command, a.args, agent_name,
        a.valid_return_codes.mapRef (fun v => v.map (fun x => x))⟩
  | .JobComplete a =>
      .JobComplete ⟨a.started_at, a.completed_at, a.job_name, a.command,
        a.agent_name, a.return_code, JobOutCome.fromArchived a.outcome,
        a.output⟩

/-- Round trip through the codec: serialise (archive) then decode. -/
def Message.roundTrip (m : Message) : Message :=
  Message.fromArchived (Message.archive m)

/-! ## Bytes put on the wire by the senders

`Message::tcp_write` (communications.rs, lines 134-141) serialises the
message and calls `stream.write_all(&message)` on the serialised bytes —
nothing else is written.  `CentralCommandWriter::write` (agent/src/main.rs,
lines 168-211) serialises the message and writes `serialized[offset..end]`
slices of at most `CHUNKS_SIZE = 8192` bytes until `offset` reaches
`serialized.len()` — again nothing else.  Bytes are modelled as `Nat`
(each the value of one `u8`); the serialised payload is a parameter, since
its exact content is produced by `rkyv`. -/

/-- Chunk size used by the agent's writer (`CHUNKS_SIZE` in agent/src/main.rs). -/
def AGENT_CHUNKS_SIZE : Nat := 8192

/-- Bytes that `Message::tcp_write` puts on the stream for a message whose
serialised payload is `payload`: exactly the payload, via one `write_all`. -/
def tcp_write_bytes (payload : List Nat) : List Nat := payload

/-- Successive slices `serialized[offset..end]` written by the chunk loop
of `CentralCommandWriter::write`, with `end = min (offset + 8192) len`. -/
def central_command_chunks (payload : List Nat) : List (List Nat) :=
  match payload with
  | [] => []
  | b :: rest =>
      (b :: rest).take AGENT_CHUNKS_SIZE ::
        central_command_chunks ((b :: rest).drop AGENT_CHUNKS_SIZE)
termination_by payload.length
decreasing_by
  rw [List.length_drop]
  simp [AGENT_CHUNKS_SIZE, List.length_cons]
  omega

/-- Bytes that `CentralCommandWriter::write` puts on the stream for a
message whose serialised payload is `payload`: the concatenation of the
chunk-loop writes. -/
def central_command_write_bytes (payload : List Nat) : List Nat :=
  (central_command_chunks payload).flatten

/-- Big-endian 4-byte encoding of a `u32` value. -/
def u32_be (n : Nat) : List Nat :=
  [n / 2 ^ 24 % 256, n / 2 ^ 16 % 256, n / 2 ^ 8 % 256, n % 256]

/-- Big-endian decoding of 4 bytes (`u32::from_be_bytes`). -/
def u32_from_be (b0 b1 b2 b3 : Nat) : Nat :=
  ((b0 * 256 + b1) * 256 + b2) * 256 + b3

/-- Frame format stated by the specification: a 4-byte big-endian length
followed by exactly `length` payload bytes. -/
def framed_spec (payload : List Nat) : List Nat :=
  u32_be payload.length ++ payload

/-! ## Completion-ingestor receive path (central-command/src/command_receiver.rs) -/

/-- Chunk size used by the coordinator's receiver (`CHUNKS_SIZE` in
command_receiver.rs). -/
def RECEIVER_CHUNKS_SIZE : Nat := 4096

/-- Outcome of the `read_exact` of the 4 length bytes: either 4 bytes, or
an I/O error, which is either `UnexpectedEof` or any other kind. -/
inductive LenRead where
  | bytes (b0 b1 b2 b3 : Nat)
  | eofErr
  | otherErr
deriving DecidableEq

/-- Translation of `CommandReceiver::read_message_length` (lines 223-248):
on 4 bytes, decode big-endian; a zero length yields `Ok(None)`; an
`UnexpectedEof` error yields `Ok(None)`; every other error is logged and
also yields `Ok(None)`.  No branch returns `Err`. -/
def read_message_length (r : LenRead) : Except String (Option Nat) :=
  match r with
  | .bytes b0 b1 b2 b3 =>
      let msg_len := u32_from_be b0 b1 b2 b3
      if msg_len = 0 then .ok Option.none else .ok (Option.some msg_len)
  | .eofErr => .ok Option.none
  | .otherErr => .ok Option.none

/-- Chunked body read of `CommandReceiver::read_message_body`
(lines 250-270) over a byte stream: while fewer than `msg_len` bytes have
been received, read at most `min RECEIVER_CHUNKS_SIZE remaining` bytes; a
read that returns 0 bytes fails with a closed-connection error.  The model
reads from a list of available bytes and returns the received data
together with the unconsumed remainder of the stream. -/
def read_message_body_go (stream : List Nat) (remaining : Nat)
    (acc : List Nat) : Except String (List Nat × List Nat) :=
  match remaining with
  | 0 => .ok (acc, stream)
  | r + 1 =>
      if h : (stream.take (min RECEIVER_CHUNKS_SIZE (r + 1))).length = 0 then
        .error "Connection closed while reading message"
      else
        read_message_body_go (stream.drop (min RECEIVER_CHUNKS_SIZE (r + 1)))
          (r + 1 - (stream.take (min RECEIVER_CHUNKS_SIZE (r + 1))).length)
          (acc ++ stream.take (min RECEIVER_CHUNKS_SIZE (r + 1)))
termination_by remaining
decreasing_by
  omega

/-- Body read entry point: read exactly `msg_len` bytes from the stream. -/
def read_message_body (stream : List Nat) (msg_len : Nat) :
    Except String (List Nat × List Nat) :=
  read_message_body_go stream msg_len []

/-- One iteration of the `process_messages` session loop, abstracted over
the I/O and decode results it observes: the length read, the body read,
the decode of the received bytes, and the result of `handle_message`.  The
`OK` reply write is logged on failure but never changes control flow, so
it does not appear. -/
structure SessionIter where
  lenRead : LenRead
  bodyRead : Except String (List Nat)
  decode : Except String Message
  handle : Except String Unit

/-- Translation of the `CommandReceiver::process_messages` loop
(lines 199-221) over a list of per-iteration observations: a `None`
message length breaks the loop with `Ok(())`; errors from the body read,
the decode, or `handle_message` propagate through `?`; otherwise the loop
continues.  When the supplied observations are exhausted while the loop
still runs the model returns `Option.none`. -/
def process_messages : List SessionIter → Option (Except String Unit)
  | [] => Option.none
  | it :: rest =>
      match read_message_length it.lenRead with
      | .error e => Option.some (.error e)
      | .ok Option.none => Option.some (.ok ())
      | .ok (Option.some _) =>
          match it.bodyRead with
          | .error e => Option.some (.error e)
          | .ok _ =>
              match it.decode with
              | .error e => Option.some (.error e)
              | .ok _ =>
                  match it.handle with
                  | .error e => Option.some (.error e)
                  | .ok () => process_messages rest

/-! ## Job documents and the completion check (command_receiver.rs)

`check_job_completion` works on raw BSON documents, where the
`agents_required` and `agents_complete` arrays may be missing
(`get_array` then returns `Err`).  Every datastore operation in the
ingestor filters on a single job name, so the store is modelled per job
name: `Option JobDoc` is the result of `find_one` on that name. -/

/-- Job status (`enum Status` in core-logic/src/datastore/jobs.rs). -/
inductive Status where
  | Pending
  | Running
  | Completed
  | Error
deriving DecidableEq

/-- BSON-level view of one job document, with the two completion-related
arrays optional: `Option.none` models a document on which
`get_array` fails because the field is missing. -/
structure JobDoc where
  status : Status
  agents_required : Option (List String)
  agents_complete : Option (List String)
  agents_running : List String
deriving DecidableEq

/-- Translation of `CommandReceiver::check_job_completion` (lines 98-145)
acting on the `find_one` result for the job name: a missing job, a missing
`agents_required` array, or a missing `agents_complete` array each return
without touching the store; when the two arrays have equal length and
`agents_required` is non-empty, the job is updated with
`status = Completed`, `agents_running = []` and `agents_complete = []`;
otherwise the job is left unchanged. -/
def check_job_completion (job : Option JobDoc) : Option JobDoc :=
  match job with
  | Option.none => Option.none
  | Option.some d =>
      match d.agents_required with
      | Option.none => Option.some d
      | Option.some agents_required =>
          match d.agents_complete with
          | Option.none => Option.some d
          | Option.some agents_complete =>
              if agents_required.length = agents_complete.length ∧
                  agents_required ≠ [] then
                Option.some { d with
                  status := Status.Completed,
                  agents_running := [],
                  agents_complete := Option.some [] }
              else
                Option.some d

/-- Specification-side completion check, written from the spec sentence
"Re-read the job by name.  If both arrays exist, `agents_required` is
non-empty, and the lengths are equal, then update the job:
`status=Completed`, `agents_running=[]`, `agents_complete=[]`"; in every
other case the check makes no change. -/
def check_job_completion_spec (job : Option JobDoc) : Option JobDoc :=
  match job with
  | Option.none => Option.none
  | Option.some d =>
      match d.agents_required, d.agents_complete with
      | Option.some req, Option.some comp =>
          if req ≠ [] ∧ req.length = comp.length then
            Option.some { d with
              status := Status.Completed,
              agents_running := [],
              agents_complete := Option.some [] }
          else
            Option.some d
      | _, _ => Option.some d

/-! ## Ingestion of a `JobComplete` message (command_receiver.rs) -/

/-- Run-history outcome (`enum Outcome` in core-logic/src/datastore/runs.rs). -/
inductive RunOutcome where
  | Failure
  | Success
  | Unknown
deriving DecidableEq

/-- Conversion `impl From<JobOutCome> for Outcome` (runs.rs). -/
def RunOutcome.ofJobOutCome : JobOutCome → RunOutcome
  | .Failure => .Failure
  | .Success => .Success
  | .Unknown => .Unknown

/-- Row of the `runs` collection (`struct RunsV1` in runs.rs), without the
store-assigned object id. -/
structure RunsV1 where
  started_at : Int
  completed_at : Int
  job_name : String
  command : String
  outcome : RunOutcome
  agent_name : String
  return_code : Int
  output : String
deriving DecidableEq

/-- Conversion `impl From<JobComplete> for RunsV1` (runs.rs): the run row
carries the reported fields verbatim. -/
def RunsV1.ofJobComplete (jc : JobComplete) : RunsV1 :=
  { started_at := jc.started_at
    completed_at := jc.completed_at
    job_name := jc.job_name
    command := jc.command
    agent_name := jc.agent_name
    outcome := RunOutcome.ofJobOutCome jc.outcome
    return_code := jc.return_code
    output := jc.output }

/-- Mongo `$addToSet` on an array value: append the element only when it
is not already present. -/
def addToSet (l : List String) (x : String) : List String :=
  if x ∈ l then l else l ++ [x]

/-- Effect on the job document of the `update_one` with
`$addToSet: { agents_complete: agent_name }` issued by
`complete_agent_run`: a missing job matches nothing; on a present job,
`$addToSet` creates the `agents_complete` field when it is missing and
otherwise adds the name at most once. -/
def add_to_set_step (job : Option JobDoc) (agent_name : String) :
    Option JobDoc :=
  match job with
  | Option.none => Option.none
  | Option.some d =>
      Option.some { d with
        agents_complete :=
          Option.some (addToSet (d.agents_complete.getD []) agent_name) }

/-- State of the store that one ingestor session touches for a fixed job
name: the job document (result of `find_one` on the name) and the rows of
the append-only `runs` collection. -/
structure IngestState where
  job : Option JobDoc
  runs : List RunsV1
deriving DecidableEq

/-- Translation of `CommandReceiver::complete_agent_run` (lines 150-190):
update the job with `$addToSet` on `agents_complete`, insert one `runs`
row built from the message (`RunsV1::insert_entry`, runs.rs lines 63-70),
then run `check_job_completion` on the job name. -/
def complete_agent_run (st : IngestState) (jc : JobComplete) : IngestState :=
  { job := check_job_completion (add_to_set_step st.job jc.agent_name)
    runs := st.runs ++ [RunsV1.ofJobComplete jc] }

/-! ## Scheduler claim step (agent_manager.rs / jobs.rs `get_jobs_to_run`) -/

/-- Typed job record (`struct JobV1` in core-logic/src/datastore/jobs.rs),
with the object id modelled as a `Nat`. -/
structure JobV1 where
  id : Option Nat
  name : String
  next_run : Int
  status : Status
  description : String
  command : String
  args : List String
  env : List String
  cwd : String
  timeout_field : Nat
  retries : Nat
  valid_return_codes : List Int
  agents_required : List String
  agents_running : List String
  agents_complete : List String
deriving DecidableEq

/-- Filter of the `update_many` in `get_jobs_to_run` (agent_manager.rs
lines 309-316 and jobs.rs lines 84-91): `status = Pending`, `next_run`
strictly below the current timestamp, `agents_running` equal to the empty
array, and — Mongo `$in` on an array field — some element of
`agents_required` occurring in `connected_agents`. -/
def job_matches_claim_filter (timestamp : Int) (connected_agents : List String)
    (j : JobV1) : Bool :=
  j.status = Status.Pending ∧ j.next_run < timestamp ∧
    j.agents_running = [] ∧ j.agents_required.any fun a => connected_agents.contains a

/-- Effect of the claim `update_many` on one job document: jobs matching
the filter get `status = Running` via `$set`; all other jobs are
unchanged. -/
def claim_step (timestamp : Int) (connected_agents : List String)
    (j : JobV1) : JobV1 :=
  if job_matches_claim_filter timestamp connected_agents j then
    { j with status := Status.Running }
  else
    j

/-- Effect of the claim `update_many` on the whole `jobs` collection. -/
def claim_jobs (timestamp : Int) (connected_agents : List String)
    (jobs : List JobV1) : List JobV1 :=
  jobs.map (claim_step timestamp connected_agents)

/-- Specification-side claimability predicate, written from the spec
sentence "update-many with filter `status=Pending ∧ next_run<now ∧
agents_running=∅ ∧ agents_required ∩ online_agent_names ≠ ∅`". -/
def claimable_spec (now : Int) (online_agent_names : List String)
    (j : JobV1) : Bool :=
  j.status = Status.Pending ∧ j.next_run < now ∧ j.agents_running = [] ∧
    (j.agents_required.filter fun a => online_agent_names.contains a) ≠ []

/-! ## Dispatch of one claimed job (`AgentManager::run_job`)

`run_job` (agent_manager.rs lines 251-278) iterates the connected-agents
map; for each connected agent whose name is in the job's required set it
writes a `DispatchJob` and waits for the two-byte `OK`
(`write_to_agent`, lines 280-297); on any write or acknowledgement
failure it logs and `continue`s; on success it calls
`add_agent_to_running_job` (lines 344-358), which — when the agent is not
in the snapshot's `agents_running` — issues
`$set { agents_running: snapshot.agents_running ++ [agent] }`.  The
connected map is modelled by the list of connected agent names in
iteration order, and the write-and-acknowledge outcome for each agent by
the oracle `ackOk`.  The state threaded through is the value of the job's
`agents_running` field in the store. -/

/-- Effect of `AgentManager::add_agent_to_running_job` on the stored
`agents_running` value: the membership check and the new value both use
the job snapshot, not the current stored value. -/
def add_agent_to_running_job (job : JobV1) (stored : List String)
    (agent_name : String) : List String :=
  if agent_name ∈ job.agents_running then stored
  else job.agents_running ++ [agent_name]

/-- Translation of the `run_job` loop: required, connected, acknowledged
agents are recorded; every other agent leaves the store untouched. -/
def run_job (job : JobV1) (connected : List String) (ackOk : String → Bool)
    (stored : List String) : List String :=
  connected.foldl
    (fun stored agent =>
      if agent ∈ job.agents_required then
        if ackOk agent then add_agent_to_running_job job stored agent
        else stored
      else stored)
    stored

/-! ## Job executor (agent/src/job_dispatch.rs `JobDispatcher::spawn`) -/

/-- Exit information observed by the executor:
`Option.none` models `command.output()` returning `Err` (spawn failure),
`Option.some Option.none` a child that terminated without an exit code
(signalled), and `Option.some (Option.some c)` exit code `c`. -/
def executor_return_code (output : Option (Option Int)) : Int :=
  (output.bind id).getD (-1)

/-- Outcome classification of `JobDispatcher::spawn` (lines 91-94):
`Success` exactly on `Some(valid_codes)` containing the observed return
code, `Failure` on every other pattern. -/
def classify_outcome (valid_return_codes : Option (List Int))
    (return_code : Int) : JobOutCome :=
  match valid_return_codes with
  | Option.some valid_codes =>
      if return_code ∈ valid_codes then JobOutCome.Success
      else JobOutCome.Failure
  | Option.none => JobOutCome.Failure

/-! ## Reporter link (agent/src/main.rs `CentralCommandWriter`)

`connect_to_central_command` (lines 135-161) loops: one
`TcpStream::connect` per iteration; a failure increments `attempts`, and
when `attempts` reaches `MAX_ATTEMPTS = 60` the error is returned,
otherwise the task sleeps `RETRY_DELAY = 5` seconds and retries.  The
outcome of each successive connect attempt is supplied by an oracle
indexed by a global attempt counter, so that consecutive reconnect cycles
consume successive oracle values. -/

/-- Maximum connect attempts (`MAX_ATTEMPTS` in agent/src/main.rs). -/
def MAX_ATTEMPTS : Nat := 60

/-- Delay in seconds between connect attempts (`RETRY_DELAY`). -/
def RETRY_DELAY : Nat := 5

/-- Result of one `connect_to_central_command` call: whether it returned
`Ok`, how many `TcpStream::connect` calls it performed, how many
5-second sleeps it performed, and the next unconsumed oracle index. -/
structure ConnectResult where
  ok : Bool
  tries : Nat
  sleeps : Nat
  next : Nat
deriving DecidableEq

/-- Loop body of `connect_to_central_command`.  The Rust loop counts
`attempts` upward and returns the connect error once `attempts >= 60`
after a failure; `remaining = MAX_ATTEMPTS - 1 - attempts` counts the
same bound downward, so that the recursion is structural.  A failure with
`remaining = 0` is the sixtieth failed attempt and returns the error;
every earlier failure sleeps `RETRY_DELAY` seconds and retries. -/
def connect_go (oracle : Nat → Bool) (idx remaining : Nat) : ConnectResult :=
  if oracle idx then
    { ok := true, tries := 1, sleeps := 0, next := idx + 1 }
  else
    match remaining with
    | 0 => { ok := false, tries := 1, sleeps := 0, next := idx + 1 }
    | r + 1 =>
        let rest := connect_go oracle (idx + 1) r
        { ok := rest.ok, tries := rest.tries + 1, sleeps := rest.sleeps + 1,
          next := rest.next }

/-- Translation of `CentralCommandWriter::connect_to_central_command`,
starting with `attempts = 0` at oracle position `idx`. -/
def connect_to_central_command (oracle : Nat → Bool) (idx : Nat) :
    ConnectResult :=
  connect_go oracle idx (MAX_ATTEMPTS - 1)

/-- Result of the `read_exact` of the two reply bytes in
`CentralCommandWriter::write`. -/
inductive ReplyRead where
  | bytes (b0 b1 : Nat)
  | err
deriving DecidableEq

/-- Oracles describing the I/O observed by one `CentralCommandWriter::write`
call: whether some chunk write of outer iteration `i` fails, what the
reply read of iteration `i` returns, and the global connect-attempt
outcomes. -/
structure WriterOracle where
  chunkFail : Nat → Bool
  reply : Nat → ReplyRead
  connect : Nat → Bool

/-- ASCII byte values of the acknowledgement `b"OK"`. -/
def OK_BYTE_0 : Nat := 79

/-- ASCII byte value of the second acknowledgement byte. -/
def OK_BYTE_1 : Nat := 75

/-- How one `write` call ends in the model: `returned` when the Rust
function returns (its return type is the unit type — no error can be
handed to the caller), `outOfFuel` when the modelled number of outer loop
iterations is exhausted while the loop is still running. -/
inductive WriteOutcome where
  | returned
  | outOfFuel
deriving DecidableEq

/-- Observable result of one `write` call: how it ended, how many outer
loop iterations started (each one re-writes the serialised message from
offset 0), and how many reconnect cycles ended in exhaustion. -/
structure WriteRun where
  outcome : WriteOutcome
  iters : Nat
  exhausted : Nat
deriving DecidableEq

/-- Translation of the retry loop of `CentralCommandWriter::write`
(lines 178-208): each outer iteration writes the serialised message in
chunks (a chunk-write failure triggers a reconnect and breaks the chunk
loop, after which control still falls through to the reply read); a
failed reply read triggers a reconnect and `continue`s; a reply — equal
to `OK` or not — breaks the loop and the function returns.  `cidx` is the
next connect-oracle index, `i` the outer iteration counter. -/
def write_go (o : WriterOracle) (fuel i cidx exhausted iters : Nat) :
    WriteRun :=
  match fuel with
  | 0 => { outcome := .outOfFuel, iters := iters, exhausted := exhausted }
  | fuel + 1 =>
      let afterChunks :=
        if o.chunkFail i then
          let r := connect_to_central_command o.connect cidx
          (r.next, exhausted + (if r.ok then 0 else 1))
        else
          (cidx, exhausted)
      match o.reply i with
      | .err =>
          let r := connect_to_central_command o.connect afterChunks.1
          write_go o fuel (i + 1) r.next
            (afterChunks.2 + (if r.ok then 0 else 1)) (iters + 1)
      | .bytes _ _ =>
          { outcome := .returned, iters := iters + 1,
            exhausted := afterChunks.2 }

/-- Entry point of the `write` model: iteration 0, connect oracle at 0. -/
def central_command_write (o : WriterOracle) (fuel : Nat) : WriteRun :=
  write_go o fuel 0 0 0 0

/-- Specification-side outcome of a `write` call, written from the spec
sentences "re-emit the failed message once the stream is restored; give
up only after exhaustion" and "after exhaustion the write call errors
upward": the call either returns normally or, once a reconnect cycle is
exhausted, reports an error to its caller. -/
inductive WriteOutcomeSpec where
  | returned
  | erroredUpward
deriving DecidableEq

/-- Specification-side `write` behaviour on the same oracles: the first
write or read error whose reconnect cycle exhausts its 60 attempts makes
the call error upward; a reply read ends the call normally.  Modelled
from the spec, for comparison with `write_go`. -/
def write_spec_go (o : WriterOracle) (fuel i cidx : Nat) : WriteOutcomeSpec :=
  match fuel with
  | 0 => .returned
  | fuel + 1 =>
      if o.chunkFail i then
        let r := connect_to_central_command o.connect cidx
        if r.ok then write_spec_go o fuel i r.next else .erroredUpward
      else
        match o.reply i with
        | .err =>
            let r := connect_to_central_command o.connect cidx
            if r.ok then write_spec_go o fuel (i + 1) r.next
            else .erroredUpward
        | .bytes _ _ => .returned

/-- Oracle of a link that is persistently down: every chunk write fails,
every reply read fails, every connect attempt fails. -/
def deadLink : WriterOracle :=
  { chunkFail := fun _ => true
    reply := fun _ => ReplyRead.err
    connect := fun _ => false }

/-- Oracle of a link whose first reply read fails and which then
recovers: reconnects succeed and the re-emitted message is acknowledged
with `OK` on the second iteration. -/
def retryOracle : WriterOracle :=
  { chunkFail := fun _ => false
    reply := fun i =>
      if i = 0 then ReplyRead.err else ReplyRead.bytes OK_BYTE_0 OK_BYTE_1
    connect := fun _ => true }

/-! ## Argument joining and re-tokenisation (C10)

`AgentManager::run_job` sends `args: job.args.join(" ")`
(agent_manager.rs line 263); `JobDispatcher::spawn` re-tokenises with
`command.args(args.split_whitespace())` (job_dispatch.rs line 79), where
`str::split_whitespace` splits on Unicode white space
(`char::is_whitespace`) and never yields empty tokens.  Strings are
modelled as lists of characters. -/

/-- Unicode `White_Space` test used by Rust's `char::is_whitespace`: the
code points of the `White_Space` property. -/
def rust_is_whitespace (c : Char) : Bool :=
  c.val = 0x9 ∨ c.val = 0xA ∨ c.val = 0xB ∨ c.val = 0xC ∨ c.val = 0xD ∨
    c.val = 0x20 ∨ c.val = 0x85 ∨ c.val = 0xA0 ∨ c.val = 0x1680 ∨
    (0x2000 ≤ c.val ∧ c.val ≤ 0x200A) ∨ c.val = 0x2028 ∨ c.val = 0x2029 ∨
    c.val = 0x202F ∨ c.val = 0x205F ∨ c.val = 0x3000

/-- ASCII white-space test (`char::is_ascii_whitespace`), the class named
by the claim: space, horizontal tab, line feed, form feed, carriage
return. -/
def ascii_is_whitespace (c : Char) : Bool :=
  c.val = 0x20 ∨ c.val = 0x9 ∨ c.val = 0xA ∨ c.val = 0xC ∨ c.val = 0xD

/-- Translation of `str::split_whitespace`: the string is split at every
white-space character and the empty substrings are discarded, leaving the
maximal runs of non-white-space characters in order. -/
def split_whitespace (s : List Char) : List (List Char) :=
  (s.splitOnP rust_is_whitespace).filter fun t => !t.isEmpty

/-- Translation of `Vec::join(" ")` on the argument vector: the arguments
separated by single spaces. -/
def join_args (args : List (List Char)) : List Char :=
  match args with
  | [] => []
  | [a] => a
  | a :: rest => a ++ ' ' :: join_args rest

/-- Argument vector the child process receives: the dispatcher joins the
job's `args` with single spaces, the executor re-tokenises the joined
string. -/
def child_args (args : List (List Char)) : List (List Char) :=
  split_whitespace (join_args args)

/-- Condition under which a session iteration proceeds to the next loop
round: the length read yields a length, and the body read, the decode and
`handle_message` all succeed. -/
def iter_ok (it : SessionIter) : Prop :=
  (∃ n, read_message_length it.lenRead = .ok (Option.some n)) ∧
    (∃ b, it.bodyRead = .ok b) ∧ (∃ m, it.decode = .ok m) ∧
    it.handle = .ok ()

/-- Sample job used to instantiate the dispatch theorems at concrete
inputs. -/
def sample_job : JobV1 :=
  { id := Option.none
    name := "job1"
    next_run := 0
    status := Status.Running
    description := ""
    command := "/bin/true"
    args := []
    env := []
    cwd := ""
    timeout_field := 0
    retries := 0
    valid_return_codes := [0]
    agents_required := ["alpha"]
    agents_running := []
    agents_complete := [] }

/-- Job document used to exercise the replay of a completion report on a
job with two required agents, one of which has already reported. -/
def replay_job : JobDoc :=
  { status := Status.Running
    agents_required := Option.some ["a", "b"]
    agents_complete := Option.some ["b"]
    agents_running := ["a", "b"] }

/-- Completion report replayed in the C7 theorems. -/
def replay_msg : JobComplete :=
  { started_at := 0
    completed_at := 1
    job_name := "j"
    command := "/bin/true"
    agent_name := "a"
    return_code := 0
    outcome := JobOutCome.Success
    output := "" }

/-- Ingest state holding `replay_job` and an empty run history. -/
def replay_state : IngestState :=
  { job := Option.some replay_job, runs := [] }

/-- Ingest state whose first delivery of `replay_msg` does not complete
the job: two agents are required and none has reported yet. -/
def fresh_state : IngestState :=
  { job := Option.some { status := Status.Running
                         agents_required := Option.some ["a", "b"]
                         agents_complete := Option.some []
                         agents_running := ["a", "b"] }
    runs := [] }

/-! # Theorems -/

/-- C2: for every message `M` of the `Message` enum, serialising `M` to
bytes (`TryFrom<Message> for Vec<u8>`, modelled by the archive map of the
`rkyv` round) and then decoding those bytes (`TryFrom<Vec<u8>> for
Message`, whose repository-side content is
`From<&ArchivedMessage> for Message`) succeeds and yields a message equal
to `M`. -/
theorem c2_encode_decode_roundtrip (m : Message) : Message.roundTrip m = m := by
  cases m with
  | Ping => rfl
  | RegisterAgent r => rfl
  | DispatchJob d =>
      obtain ⟨jn, cmd, args, an, vrc⟩ := d
      cases an <;> cases vrc <;>
        simp [Message.roundTrip, Message.archive, Message.fromArchived,
          ArchivedOption.mapRef, List.map_id]
  | JobComplete j =>
      obtain ⟨sa, ca, jn, cmd, an, rc, oc, op⟩ := j
      cases oc <;> rfl

/-- C3: the completion check updates the job to `status = Completed` with
`agents_running` and `agents_complete` emptied exactly when the job
exists, both arrays are present, `agents_required` is non-empty and the
two arrays have equal length; in every other case (job missing, either
array missing, `agents_required` empty, or unequal lengths) it returns
without changing the job document.  The source translation
`check_job_completion` coincides with the specification-side
`check_job_completion_spec` on every store state. -/
theorem c3_completion_check (job : Option JobDoc) :
    check_job_completion job = check_job_completion_spec job := by
  cases job with
  | none => rfl
  | some d =>
      obtain ⟨st, req, comp, run⟩ := d
      cases req with
      | none => cases comp <;> rfl
      | some req =>
          cases comp with
          | none => rfl
          | some comp =>
              simp only [check_job_completion, check_job_completion_spec]
              exact if_congr and_comm rfl rfl

/-- C6: the executor records `return_code = -1` when the child fails to
spawn (`output` is `Err`) or terminates without an exit code, and the
observed code otherwise; the outcome is `Success` exactly when
`valid_return_codes` is present and contains the observed return code,
and `Failure` in every other case, including an absent or empty
`valid_return_codes` list. -/
theorem c6_executor_classification :
    (executor_return_code Option.none = -1 ∧
      executor_return_code (Option.some Option.none) = -1 ∧
      ∀ c : Int, executor_return_code (Option.some (Option.some c)) = c) ∧
    (∀ (valid : Option (List Int)) (rc : Int),
      classify_outcome valid rc = JobOutCome.Success ↔
        ∃ codes, valid = Option.some codes ∧ rc ∈ codes) ∧
    (∀ rc : Int, classify_outcome Option.none rc = JobOutCome.Failure ∧
      classify_outcome (Option.some []) rc = JobOutCome.Failure) := by
  refine ⟨⟨rfl, rfl, fun c => rfl⟩, ?_, fun rc => ⟨rfl, by simp [classify_outcome]⟩⟩
  intro valid rc
  cases valid with
  | none =>
      simp [classify_outcome]
  | some codes =>
      by_cases h : rc ∈ codes
      · simp [classify_outcome, h]
      · simp [classify_outcome, h]

/-- C4: the claim step of the scheduler transitions a job from `Pending`
to `Running` exactly when `status = Pending`, `next_run` is strictly
below the current time, `agents_running` is empty, and `agents_required`
has at least one name among the connected agents: the source filter
coincides with the specification's claimability predicate, the
`update_many` sets `status = Running` on exactly the matching jobs, and a
job whose `agents_required` is empty never matches, whatever the
connected set. -/
theorem c4_claim_filter :
    (∀ (now : Int) (conn : List String) (j : JobV1),
      job_matches_claim_filter now conn j = claimable_spec now conn j) ∧
    (∀ (now : Int) (conn : List String) (jobs : List JobV1),
      claim_jobs now conn jobs =
        jobs.map fun j =>
          if claimable_spec now conn j then { j with status := Status.Running }
          else j) ∧
    (∀ (now : Int) (conn : List String) (j : JobV1),
      job_matches_claim_filter now conn { j with agents_required := [] } =
        false ∧
      claimable_spec now conn { j with agents_required := [] } = false) := by
  have h1 : ∀ (now : Int) (conn : List String) (j : JobV1),
      job_matches_claim_filter now conn j = claimable_spec now conn j := by
    intro now conn j
    rw [Bool.eq_iff_iff]
    simp only [job_matches_claim_filter, claimable_spec, decide_eq_true_eq]
    constructor
    · rintro ⟨hs, hn, hr, hany⟩
      refine ⟨hs, hn, hr, ?_⟩
      rw [List.any_eq_true] at hany
      obtain ⟨a, ha, hc⟩ := hany
      intro hnil
      have hmem : a ∈ List.filter (fun a => conn.contains a) j.agents_required :=
        List.mem_filter.mpr ⟨ha, hc⟩
      rw [hnil] at hmem
      exact absurd hmem (List.not_mem_nil a)
    · rintro ⟨hs, hn, hr, hne⟩
      refine ⟨hs, hn, hr, ?_⟩
      rw [List.any_eq_true]
      obtain ⟨a, haf⟩ := List.exists_mem_of_ne_nil _ hne
      have hsplit := List.mem_filter.mp haf
      exact ⟨a, hsplit.1, hsplit.2⟩
  refine ⟨h1, ?_, ?_⟩
  · intro now conn jobs
    unfold claim_jobs
    refine List.map_congr_left fun j _ => ?_
    rw [claim_step, h1]
  · intro now conn j
    constructor
    · rw [h1]
      simp [claimable_spec]
    · simp [claimable_spec]

/-- Helper: the chunk loop of `CentralCommandWriter::write` writes the
serialised payload and nothing else. -/
theorem central_command_chunks_flatten (payload : List Nat) :
    (central_command_chunks payload).flatten = payload := by
  induction payload using central_command_chunks.induct with
  | case1 =>
      rw [central_command_chunks]
      rfl
  | case2 b rest ih =>
      rw [central_command_chunks]
      simp only [List.flatten_cons, ih, List.take_append_drop]

/-- Helper: when the stream holds at least `remaining` bytes, the chunked
body read consumes exactly `remaining` bytes and leaves the rest. -/
theorem read_message_body_go_exact :
    ∀ (remaining : Nat) (stream rest acc : List Nat),
      stream.length = remaining →
      read_message_body_go (stream ++ rest) remaining acc =
        .ok (acc ++ stream, rest) := by
  intro remaining
  induction remaining using Nat.strong_induction_on with
  | _ remaining ih =>
      intro stream rest acc hlen
      match remaining with
      | 0 =>
          have hs : stream = [] := List.length_eq_zero.mp hlen
          subst hs
          simp [read_message_body_go]
      | r + 1 =>
          have hpos : 1 ≤ min RECEIVER_CHUNKS_SIZE (r + 1) := by
            simp [RECEIVER_CHUNKS_SIZE]
          have hle : min RECEIVER_CHUNKS_SIZE (r + 1) ≤ stream.length := by
            omega
          have htake : (stream ++ rest).take (min RECEIVER_CHUNKS_SIZE (r + 1)) =
              stream.take (min RECEIVER_CHUNKS_SIZE (r + 1)) :=
            List.take_append_of_le_length hle
          have hdrop : (stream ++ rest).drop (min RECEIVER_CHUNKS_SIZE (r + 1)) =
              stream.drop (min RECEIVER_CHUNKS_SIZE (r + 1)) ++ rest :=
            List.drop_append_of_le_length hle
          have htlen : (stream.take (min RECEIVER_CHUNKS_SIZE (r + 1))).length =
              min RECEIVER_CHUNKS_SIZE (r + 1) := by
            rw [List.length_take]
            omega
          rw [read_message_body_go]
          rw [dif_neg (by rw [htake, htlen]; omega)]
          rw [htake, htlen, hdrop]
          rw [ih (r + 1 - min RECEIVER_CHUNKS_SIZE (r + 1)) (by omega)
            (stream.drop (min RECEIVER_CHUNKS_SIZE (r + 1))) rest
            (acc ++ stream.take (min RECEIVER_CHUNKS_SIZE (r + 1)))
            (by rw [List.length_drop]; omega)]
          rw [List.append_assoc, List.take_append_drop]

/-- C1: the specification's framing claim against the senders and the
receiver.  The receiver side holds: `read_message_length` decodes the
4-byte big-endian length (and `read_message_body` then consumes exactly
`length` payload bytes).  The sender side fails: for every serialised
payload, both `Message::tcp_write` and `CentralCommandWriter::write` put
exactly the payload bytes on the stream, which never equals the
length-prefixed frame the specification requires. -/
theorem c1_wire_framing_mismatch :
    (∀ payload : List Nat, tcp_write_bytes payload = payload ∧
      central_command_write_bytes payload = payload) ∧
    (∀ payload : List Nat, tcp_write_bytes payload ≠ framed_spec payload ∧
      central_command_write_bytes payload ≠ framed_spec payload) ∧
    (∀ n : Nat, u32_from_be (n / 2 ^ 24 % 256) (n / 2 ^ 16 % 256)
      (n / 2 ^ 8 % 256) (n % 256) = n % 2 ^ 32) ∧
    (∀ payload rest : List Nat,
      (framed_spec payload ++ rest).take 4 = u32_be payload.length ∧
      read_message_body ((framed_spec payload ++ rest).drop 4) payload.length =
        .ok (payload, rest)) := by
  have hlen : ∀ payload : List Nat, (framed_spec payload).length =
      payload.length + 4 := by
    intro payload
    simp [framed_spec, u32_be]
  have hid : ∀ payload : List Nat, central_command_write_bytes payload =
      payload := fun payload => central_command_chunks_flatten payload
  refine ⟨fun payload => ⟨rfl, hid payload⟩, ?_, ?_, ?_⟩
  · intro payload
    constructor
    · intro h
      have := congrArg List.length h
      rw [hlen] at this
      simp [tcp_write_bytes] at this
    · intro h
      have := congrArg List.length h
      rw [hlen, hid] at this
      omega
  · intro n
    unfold u32_from_be
    omega
  · intro payload rest
    have h4 : (u32_be payload.length).length = 4 := by simp [u32_be]
    constructor
    · rw [framed_spec, List.append_assoc,
        List.take_append_of_le_length (by omega), List.take_of_length_le (by omega)]
    · rw [framed_spec, List.append_assoc, List.drop_append_of_le_length (by omega),
        List.drop_of_length_le (by omega), List.nil_append]
      exact read_message_body_go_exact payload.length payload rest [] rfl

/-- C5: after one dispatch pass over a claimed job, every name the store
holds in `agents_running` beyond the initial value and the snapshot is a
connected agent, required by the job, whose `DispatchJob` write was
acknowledged `OK`; and agents that are not required, or whose write or
acknowledgement fails, contribute nothing — filtering them out of the
connected list leaves the final store value unchanged. -/
theorem c5_dispatch_running_subset :
    (∀ (job : JobV1) (connected : List String) (ackOk : String → Bool)
        (stored : List String) (x : String),
      x ∈ run_job job connected ackOk stored →
      x ∈ stored ∨ x ∈ job.agents_running ∨
        (x ∈ connected ∧ x ∈ job.agents_required ∧ ackOk x = true)) ∧
    (∀ (job : JobV1) (connected : List String) (ackOk : String → Bool)
        (stored : List String),
      run_job job connected ackOk stored =
        run_job job
          (connected.filter fun a =>
            decide (a ∈ job.agents_required) && ackOk a)
          ackOk stored) := by
  constructor
  · intro job connected ackOk
    induction connected with
    | nil =>
        intro stored x hx
        exact Or.inl hx
    | cons c cs ih =>
        intro stored x hx
        rw [run_job, List.foldl_cons] at hx
        have hx2 := ih _ x (by rw [run_job]; exact hx)
        rcases hx2 with hstep | hrun | ⟨hcs, hreq, hack⟩
        · by_cases hr : c ∈ job.agents_required
          · by_cases ha : ackOk c
            · rw [if_pos hr, if_pos ha, add_agent_to_running_job] at hstep
              by_cases hin : c ∈ job.agents_running
              · rw [if_pos hin] at hstep
                exact Or.inl hstep
              · rw [if_neg hin] at hstep
                rcases List.mem_append.mp hstep with hs | hc
                · exact Or.inr (Or.inl hs)
                · have hxc : x = c := List.mem_singleton.mp hc
                  subst hxc
                  exact Or.inr (Or.inr ⟨List.mem_cons_self x cs, hr, ha⟩)
            · rw [if_pos hr, if_neg ha] at hstep
              exact Or.inl hstep
          · rw [if_neg hr] at hstep
            exact Or.inl hstep
        · exact Or.inr (Or.inl hrun)
        · exact Or.inr (Or.inr ⟨List.mem_cons_of_mem c hcs, hreq, hack⟩)
  · intro job connected ackOk
    induction connected with
    | nil =>
        intro stored
        rfl
    | cons c cs ih =>
        intro stored
        by_cases hr : c ∈ job.agents_required
        · by_cases ha : ackOk c
          · rw [List.filter_cons_of_pos (by simp [hr, ha])]
            rw [run_job, List.foldl_cons, if_pos hr, if_pos ha]
            rw [run_job, List.foldl_cons, if_pos hr, if_pos ha]
            exact ih (add_agent_to_running_job job stored c)
          · rw [List.filter_cons_of_neg (by simp [ha])]
            rw [run_job, List.foldl_cons, if_pos hr, if_neg ha]
            exact ih stored
        · rw [List.filter_cons_of_neg (by simp [hr])]
          rw [run_job, List.foldl_cons, if_neg hr]
          exact ih stored

/-- Witness for C5 at concrete inputs: the sample job requiring agent
`alpha`, with `alpha` connected and acknowledging. -/
theorem c5_dispatch_running_subset_witness :
    "alpha" ∈ ([] : List String) ∨ "alpha" ∈ sample_job.agents_running ∨
      ("alpha" ∈ ["alpha"] ∧ "alpha" ∈ sample_job.agents_required ∧
        (fun _ : String => true) "alpha" = true) :=
  c5_dispatch_running_subset.1 sample_job ["alpha"] (fun _ => true) []
    "alpha" (by decide)

/-- C9: every failure to read the 4-byte length — end of file or any
other I/O error — and a zero length all make `read_message_length` return
`Ok(None)`, and a session whose earlier iterations all succeeded then
terminates with `Ok(())` from `process_messages`: an I/O error at the
frame boundary is reported to the caller exactly like a clean close. -/
theorem c9_session_clean_close :
    (read_message_length LenRead.eofErr = .ok Option.none ∧
      read_message_length LenRead.otherErr = .ok Option.none) ∧
    (∀ b0 b1 b2 b3 : Nat, u32_from_be b0 b1 b2 b3 = 0 →
      read_message_length (LenRead.bytes b0 b1 b2 b3) = .ok Option.none) ∧
    (∀ (pre : List SessionIter) (it : SessionIter) (rest : List SessionIter),
      (∀ p ∈ pre, iter_ok p) →
      read_message_length it.lenRead = .ok Option.none →
      process_messages (pre ++ it :: rest) = Option.some (.ok ())) := by
  refine ⟨⟨rfl, rfl⟩, ?_, ?_⟩
  · intro b0 b1 b2 b3 h
    simp [read_message_length, h]
  · intro pre
    induction pre with
    | nil =>
        intro it rest _ hlen
        rw [List.nil_append, process_messages, hlen]
    | cons p ps ih =>
        intro it rest hgood hlen
        obtain ⟨⟨n, hn⟩, ⟨b, hb⟩, ⟨m, hm⟩, hh⟩ :=
          hgood p (List.mem_cons_self p ps)
        rw [List.cons_append, process_messages, hn, hb, hm, hh]
        exact ih it rest (fun q hq => hgood q (List.mem_cons_of_mem p hq)) hlen

/-- Witness for C9: one successful iteration followed by an end-of-file
at the length read ends the session with `Ok(())`. -/
theorem c9_session_clean_close_witness :
    process_messages
      [⟨LenRead.bytes 0 0 0 1, .ok [7], .ok Message.Ping, .ok ()⟩,
        ⟨LenRead.eofErr, .ok [], .ok Message.Ping, .ok ()⟩] =
      Option.some (.ok ()) :=
  c9_session_clean_close.2.2
    [⟨LenRead.bytes 0 0 0 1, .ok [7], .ok Message.Ping, .ok ()⟩]
    ⟨LenRead.eofErr, .ok [], .ok Message.Ping, .ok ()⟩ []
    (by
      intro p hp
      rw [List.mem_singleton] at hp
      subst hp
      exact ⟨⟨1, rfl⟩, ⟨[7], rfl⟩, ⟨Message.Ping, rfl⟩, rfl⟩)
    rfl

/-- Helper: the `$addToSet` update of `complete_agent_run` is idempotent
on the job document. -/
theorem add_to_set_step_idem (job : Option JobDoc) (a : String) :
    add_to_set_step (add_to_set_step job a) a = add_to_set_step job a := by
  cases job with
  | none => rfl
  | some d =>
      have hmem : a ∈ addToSet (d.agents_complete.getD []) a := by
        unfold addToSet
        by_cases h : a ∈ d.agents_complete.getD []
        · rw [if_pos h]
          exact h
        · rw [if_neg h]
          exact List.mem_append_right _ (List.mem_singleton.mpr rfl)
      simp only [add_to_set_step, Option.getD_some]
      rw [addToSet, if_pos hmem]

/-- C7 counterexample: delivering `replay_msg` twice to `replay_state`
(two required agents, the other one already reported) does not leave the
job document unchanged after the second delivery — the first delivery
completes the job and clears `agents_complete`, and the replay re-adds
the agent name. -/
theorem c7_replay_counterexample :
    (complete_agent_run (complete_agent_run replay_state replay_msg)
        replay_msg).job ≠
      (complete_agent_run replay_state replay_msg).job := by
  decide

/-- C7 amended: when the first delivery's completion check leaves the job
document unchanged (the delivery does not complete the job), delivering
the same `JobComplete` twice leaves the job document unchanged after the
second delivery, while each delivery appends exactly one row to the
`runs` collection. -/
theorem c7_replay_idempotent_amended (st : IngestState) (jc : JobComplete)
    (h : check_job_completion (add_to_set_step st.job jc.agent_name) =
      add_to_set_step st.job jc.agent_name) :
    (complete_agent_run (complete_agent_run st jc) jc).job =
      (complete_agent_run st jc).job ∧
    (complete_agent_run st jc).runs =
      st.runs ++ [RunsV1.ofJobComplete jc] ∧
    (complete_agent_run (complete_agent_run st jc) jc).runs =
      st.runs ++ [RunsV1.ofJobComplete jc] ++ [RunsV1.ofJobComplete jc] := by
  refine ⟨?_, rfl, rfl⟩
  show check_job_completion
      (add_to_set_step (check_job_completion (add_to_set_step st.job jc.agent_name))
        jc.agent_name) =
    check_job_completion (add_to_set_step st.job jc.agent_name)
  rw [h, add_to_set_step_idem, h]

/-- Witness for the amended C7 at a state whose first delivery does not
complete the job: two agents required, none reported yet. -/
theorem c7_replay_idempotent_amended_witness :
    check_job_completion (add_to_set_step fresh_state.job replay_msg.agent_name) =
      add_to_set_step fresh_state.job replay_msg.agent_name ∧
    (complete_agent_run (complete_agent_run fresh_state replay_msg)
        replay_msg).job =
      (complete_agent_run fresh_state replay_msg).job :=
  ⟨by decide,
    (c7_replay_idempotent_amended fresh_state replay_msg (by decide)).1⟩

/-- Helper: facts about the bounded connect loop, all at once for a
single induction — the number of attempts is bounded by `remaining + 1`,
exactly one sleep separates consecutive attempts, the loop fails exactly
when the first `remaining + 1` attempts all fail, and a failing loop made
exactly `remaining + 1` attempts. -/
theorem connect_go_props (oracle : Nat → Bool) :
    ∀ remaining idx,
      (connect_go oracle idx remaining).tries ≤ remaining + 1 ∧
      (connect_go oracle idx remaining).sleeps + 1 =
        (connect_go oracle idx remaining).tries ∧
      ((connect_go oracle idx remaining).ok = false ↔
        ∀ k ≤ remaining, oracle (idx + k) = false) ∧
      ((connect_go oracle idx remaining).ok = false →
        (connect_go oracle idx remaining).tries = remaining + 1) := by
  intro remaining
  induction remaining with
  | zero =>
      intro idx
      by_cases h : oracle idx
      · have hval : connect_go oracle idx 0 =
            { ok := true, tries := 1, sleeps := 0, next := idx + 1 } := by
          rw [connect_go, if_pos h]
        rw [hval]
        refine ⟨Nat.le_refl 1, rfl, ?_, fun habs => absurd habs (by simp)⟩
        constructor
        · intro habs
          exact absurd habs (by simp)
        · intro hall
          have h0 := hall 0 (Nat.le_refl 0)
          rw [Nat.add_zero] at h0
          rw [h0] at h
          exact absurd h (by simp)
      · have hfalse : oracle idx = false := by simpa using h
        have hval : connect_go oracle idx 0 =
            { ok := false, tries := 1, sleeps := 0, next := idx + 1 } := by
          rw [connect_go, if_neg h]
        rw [hval]
        refine ⟨Nat.le_refl 1, rfl, ?_, fun _ => rfl⟩
        constructor
        · intro _ k hk
          have hk0 : k = 0 := Nat.le_zero.mp hk
          subst hk0
          rw [Nat.add_zero]
          exact hfalse
        · intro _
          rfl
  | succ r ih =>
      intro idx
      by_cases h : oracle idx
      · have hval : connect_go oracle idx (r + 1) =
            { ok := true, tries := 1, sleeps := 0, next := idx + 1 } := by
          rw [connect_go, if_pos h]
        rw [hval]
        refine ⟨by show (1 : Nat) ≤ r + 1 + 1; omega, rfl, ?_,
          fun habs => absurd habs (by simp)⟩
        constructor
        · intro habs
          exact absurd habs (by simp)
        · intro hall
          have h0 := hall 0 (Nat.zero_le _)
          rw [Nat.add_zero] at h0
          rw [h0] at h
          exact absurd h (by simp)
      · have hfalse : oracle idx = false := by simpa using h
        obtain ⟨iht, ihs, ihok, ihft⟩ := ih (idx + 1)
        have hval : connect_go oracle idx (r + 1) =
            { ok := (connect_go oracle (idx + 1) r).ok,
              tries := (connect_go oracle (idx + 1) r).tries + 1,
              sleeps := (connect_go oracle (idx + 1) r).sleeps + 1,
              next := (connect_go oracle (idx + 1) r).next } := by
          rw [connect_go, if_neg h]
        rw [hval]
        refine ⟨by simpa using iht, by simpa using ihs, ?_, ?_⟩
        · simp only []
          rw [ihok]
          constructor
          · intro hall k hk
            match k, hk with
            | 0, _ =>
                rw [Nat.add_zero]
                exact hfalse
            | j + 1, hk =>
                have hj := hall j (by omega)
                have harith : idx + 1 + j = idx + (j + 1) := by omega
                rw [harith] at hj
                exact hj
          · intro hall k hk
            have hk1 := hall (k + 1) (by omega)
            have harith : idx + (k + 1) = idx + 1 + k := by omega
            rw [harith] at hk1
            exact hk1
        · intro hok
          simp only [] at hok
          rw [ihft hok]

/-- Helper: the connect loop against an always-failing oracle fails after
exactly `remaining + 1` attempts and `remaining` sleeps. -/
theorem connect_go_const_false :
    ∀ remaining idx, connect_go (fun _ => false) idx remaining =
      { ok := false, tries := remaining + 1, sleeps := remaining,
        next := idx + remaining + 1 } := by
  intro remaining
  induction remaining with
  | zero =>
      intro idx
      rw [connect_go, if_neg (by simp)]
  | succ r ih =>
      intro idx
      rw [connect_go, if_neg (by simp), ih (idx + 1)]
      have harith : idx + 1 + r + 1 = idx + (r + 1) + 1 := by omega
      simp [harith]

/-- Helper: against the dead link the write loop never returns — each
outer iteration re-writes the message, performs two exhausted reconnect
cycles and continues, until the modelled fuel runs out. -/
theorem write_go_deadLink :
    ∀ (fuel i cidx ex iters : Nat),
      write_go deadLink fuel i cidx ex iters =
        { outcome := WriteOutcome.outOfFuel, iters := iters + fuel,
          exhausted := ex + 2 * fuel } := by
  intro fuel
  induction fuel with
  | zero =>
      intro i cidx ex iters
      rw [write_go]
      simp
  | succ f ih =>
      intro i cidx ex iters
      have hcf : deadLink.chunkFail i = true := rfl
      have hrep : deadLink.reply i = ReplyRead.err := rfl
      have hcon : deadLink.connect = fun _ => false := rfl
      rw [write_go]
      simp only [hcf, hrep, hcon, connect_to_central_command,
        connect_go_const_false, if_true]
      simp only [Bool.false_eq_true, if_false]
      rw [ih]
      simp only [WriteRun.mk.injEq]
      refine ⟨trivial, by omega, by omega⟩

/-- C8 counterexample: on a persistently dead link the specification-side
`write` errors upward once the 60 reconnect attempts are exhausted, while
the source-side `write` — whose Rust return type is the unit type — keeps
retrying without ever reporting an error: after fuel 1 it has already
been through two exhausted reconnect cycles, and after fuel 1000 it is
still looping. -/
theorem c8_errors_upward_counterexample :
    write_spec_go deadLink 1 0 0 = WriteOutcomeSpec.erroredUpward ∧
    central_command_write deadLink 1 =
      { outcome := WriteOutcome.outOfFuel, iters := 1, exhausted := 2 } ∧
    central_command_write deadLink 1000 =
      { outcome := WriteOutcome.outOfFuel, iters := 1000, exhausted := 2000 } := by
  refine ⟨by decide, ?_, ?_⟩
  · rw [central_command_write, write_go_deadLink]
  · rw [central_command_write, write_go_deadLink]

/-- C8 amended: on any write or read error the reporter link reconnects,
attempting at most 60 TCP connects with one 5-second sleep between
consecutive attempts, and failing exactly when 60 consecutive attempts
fail; after a failed reply read the next loop iteration re-emits the
message, and a received reply ends the call; but after the 60 attempts
are exhausted the write call does not error upward — it returns nothing
to its caller and, while the link stays dead, keeps retrying forever. -/
theorem c8_reconnect_bounded_amended :
    (∀ (oracle : Nat → Bool) (idx : Nat),
      (connect_to_central_command oracle idx).tries ≤ MAX_ATTEMPTS ∧
      (connect_to_central_command oracle idx).sleeps + 1 =
        (connect_to_central_command oracle idx).tries ∧
      ((connect_to_central_command oracle idx).ok = false ↔
        ∀ k < MAX_ATTEMPTS, oracle (idx + k) = false) ∧
      ((connect_to_central_command oracle idx).ok = false →
        (connect_to_central_command oracle idx).tries = MAX_ATTEMPTS)) ∧
    (∀ (o : WriterOracle) (fuel b0 b1 : Nat),
      o.reply 0 = ReplyRead.err → o.reply 1 = ReplyRead.bytes b0 b1 →
      (central_command_write o (fuel + 2)).outcome = WriteOutcome.returned ∧
      (central_command_write o (fuel + 2)).iters = 2) ∧
    (∀ fuel : Nat,
      central_command_write deadLink fuel =
        { outcome := WriteOutcome.outOfFuel, iters := fuel,
          exhausted := 2 * fuel }) := by
  refine ⟨?_, ?_, ?_⟩
  · intro oracle idx
    obtain ⟨ht, hs, hok, hft⟩ := connect_go_props oracle (MAX_ATTEMPTS - 1) idx
    refine ⟨?_, hs, ?_, ?_⟩
    · simpa [MAX_ATTEMPTS, connect_to_central_command] using ht
    · rw [connect_to_central_command, hok]
      constructor
      · intro hall k hk
        exact hall k (by simp [MAX_ATTEMPTS] at hk ⊢; omega)
      · intro hall k hk
        exact hall k (by simp [MAX_ATTEMPTS] at hk ⊢; omega)
    · intro hfail
      rw [connect_to_central_command, hft hfail]
      decide
  · intro o fuel b0 b1 h0 h1
    rw [central_command_write, write_go, write_go]
    simp [h0, h1]
  · intro fuel
    rw [central_command_write, write_go_deadLink]
    simp

/-- Witness for the amended C8: the always-failing oracle exhausts
exactly 60 attempts, and the recovering oracle returns after re-emitting
on its second iteration. -/
theorem c8_reconnect_bounded_amended_witness :
    (connect_to_central_command (fun _ => false) 0).ok = false ∧
    (connect_to_central_command (fun _ => false) 0).tries = MAX_ATTEMPTS ∧
    (central_command_write retryOracle 2).outcome = WriteOutcome.returned ∧
    (central_command_write retryOracle 2).iters = 2 :=
  ⟨by decide,
    (c8_reconnect_bounded_amended.1 (fun _ => false) 0).2.2.2 (by decide),
    (c8_reconnect_bounded_amended.2.1 retryOracle 0 OK_BYTE_0 OK_BYTE_1
      rfl rfl).1,
    (c8_reconnect_bounded_amended.2.1 retryOracle 0 OK_BYTE_0 OK_BYTE_1
      rfl rfl).2⟩

/-- Helper: no chunk produced by `splitOnP` contains a separator. -/
theorem splitOnP_tokens_sep_free {α : Type} (p : α → Bool) :
    ∀ (s t : List α), t ∈ s.splitOnP p → ∀ c ∈ t, p c = false := by
  intro s
  induction s with
  | nil =>
      intro t ht c hc
      rw [List.splitOnP_nil, List.mem_singleton] at ht
      subst ht
      exact absurd hc (List.not_mem_nil c)
  | cons x xs ih =>
      intro t ht c hc
      rw [List.splitOnP_cons] at ht
      by_cases hx : p x
      · rw [if_pos hx] at ht
        rcases List.mem_cons.mp ht with h1 | h2
        · subst h1
          exact absurd hc (List.not_mem_nil c)
        · exact ih t h2 c hc
      · rw [if_neg hx] at ht
        obtain ⟨hd, tl, hsp⟩ : ∃ hd tl, xs.splitOnP p = hd :: tl := by
          cases hsp : xs.splitOnP p with
          | nil => exact absurd hsp (List.splitOnP_ne_nil p xs)
          | cons a b => exact ⟨a, b, rfl⟩
        rw [hsp, List.modifyHead_cons] at ht
        rcases List.mem_cons.mp ht with h1 | h2
        · subst h1
          rcases List.mem_cons.mp hc with hcx | hch
          · subst hcx
            simpa using hx
          · exact ih hd (by rw [hsp]; exact List.mem_cons_self hd tl) c hch
        · exact ih t (by rw [hsp]; exact List.mem_cons_of_mem hd h2) c hc

/-- Helper: every token produced by `split_whitespace` is non-empty and
free of white space. -/
theorem split_whitespace_tokens (s t : List Char)
    (ht : t ∈ split_whitespace s) :
    t ≠ [] ∧ ∀ c ∈ t, rust_is_whitespace c = false := by
  unfold split_whitespace at ht
  have hmem := List.mem_filter.mp ht
  refine ⟨by simpa using hmem.2,
    fun c hc => splitOnP_tokens_sep_free rust_is_whitespace s t hmem.1 c hc⟩

/-- Helper: re-tokenising the space-joined argument vector recovers it
when every argument is non-empty and free of white space. -/
theorem split_whitespace_join (args : List (List Char))
    (h : ∀ a ∈ args, a ≠ [] ∧ ∀ c ∈ a, rust_is_whitespace c = false) :
    split_whitespace (join_args args) = args := by
  induction args with
  | nil => rfl
  | cons a rest ih =>
      obtain ⟨hne, hfree⟩ := h a (List.mem_cons_self a rest)
      cases rest with
      | nil =>
          unfold split_whitespace
          rw [show join_args [a] = a from rfl]
          rw [List.splitOnP_eq_single rust_is_whitespace a
            (fun x hx => by simpa using hfree x hx)]
          simp [hne]
      | cons b rest2 =>
          have hj : join_args (a :: b :: rest2) =
              a ++ ' ' :: join_args (b :: rest2) := rfl
          unfold split_whitespace
          rw [hj, List.splitOnP_first rust_is_whitespace a
            (fun x hx => by simpa using hfree x hx) ' ' (by decide)
            (join_args (b :: rest2))]
          rw [List.filter_cons_of_pos (by simpa using hne)]
          have hrest := ih fun x hx => h x (List.mem_cons_of_mem a hx)
          unfold split_whitespace at hrest
          rw [hrest]

/-- C10 counterexample: with `whitespace` read as the claim's "ASCII
whitespace", the round-trip equivalence is false on the single argument
`"x y"` — it contains no ASCII white space and is non-empty, yet the
executor's `split_whitespace` (Unicode white space) splits it, so the
child does not receive the original argument vector. -/
theorem c10_ascii_whitespace_counterexample :
    ¬(child_args [['x', Char.ofNat 0xA0, 'y']] =
        [['x', Char.ofNat 0xA0, 'y']] ↔
      ∀ a ∈ [['x', Char.ofNat 0xA0, 'y']],
        a ≠ [] ∧ ∀ c ∈ a, ascii_is_whitespace c = false) := by
  decide

/-- C10 amended: the dispatcher joins the argument vector with single
spaces and the executor re-tokenises on Unicode white space
(`char::is_whitespace`); the child receives the original argument vector
exactly when every original argument is non-empty and contains no
Unicode white-space character. -/
theorem c10_args_roundtrip_amended (args : List (List Char)) :
    child_args args = args ↔
      ∀ a ∈ args, a ≠ [] ∧ ∀ c ∈ a, rust_is_whitespace c = false := by
  constructor
  · intro heq a ha
    have hmem : a ∈ split_whitespace (join_args args) := by
      rw [child_args] at heq
      rw [heq]
      exact ha
    exact split_whitespace_tokens (join_args args) a hmem
  · intro h
    exact split_whitespace_join args h

end RustActionDispatch
